import Mathlib

set_option maxHeartbeats 1000000
set_option maxRecDepth 4000

/-!
Verification of the toroidal Game-of-Life pipeline in
`example_code/item_58_learn.py`.

The pure core (`Grid`, `game_logic`, `count_neighbors`, the per-generation
pipeline) is embedded as executable Lean functions; the queue/worker
machinery is embedded as explicit event traces and a step function on a
queue-plus-consumers state.
-/

/-- Cell states are the strings used by the source (`ALIVE = "*"`,
`EMPTY = "-"`). -/
abbrev St := String

def ALIVE : St := "*"

def EMPTY : St := "-"

/-- Exceptions are modelled as plain messages. -/
abbrev Err := String

/-- The `Grid` class: `height`, `width`, and the row-major matrix `rows`. -/
structure Grid where
  height : Nat
  width : Nat
  rows : List (List St)
deriving DecidableEq, Repr

/-- `Grid.__init__`: `height` rows, each holding `width` `EMPTY` cells.
`LockGrid` adds only a mutex around single operations, so it shares this
embedding. -/
def Grid.init (height width : Nat) : Grid :=
  { height := height, width := width,
    rows := List.replicate height (List.replicate width EMPTY) }

/-- Well-formedness established by the constructor: the row list matches the
declared dimensions. -/
def Grid.wf (g : Grid) : Prop :=
  g.rows.length = g.height ∧ ∀ r ∈ g.rows, r.length = g.width

/-- `Grid.get`, fallible form: `self.rows[y % self.height][x % self.width]`;
`none` models a Python `IndexError`. -/
def Grid.getOpt (g : Grid) (y x : Int) : Option St :=
  match g.rows[(y % (g.height : Int)).toNat]? with
  | none => none
  | some row => row[(x % (g.width : Int)).toNat]?

/-- `Grid.get`, total form used by the simulation (it agrees with
`Grid.getOpt` on well-formed grids). -/
def Grid.get (g : Grid) (y x : Int) : St :=
  (g.rows.getD (y % (g.height : Int)).toNat []).getD (x % (g.width : Int)).toNat EMPTY

/-- `Grid.set`, fallible form:
`self.rows[y % self.height][x % self.width] = state`. -/
def Grid.setOpt (g : Grid) (y x : Int) (state : St) : Option Grid :=
  match g.rows[(y % (g.height : Int)).toNat]? with
  | none => none
  | some row =>
    match row[(x % (g.width : Int)).toNat]? with
    | none => none
    | some _ =>
      some { g with
              rows := g.rows.set (y % (g.height : Int)).toNat
                        (row.set (x % (g.width : Int)).toNat state) }

/-- `Grid.set`, total form (an out-of-range write is dropped, which cannot
happen on a well-formed grid). -/
def Grid.set (g : Grid) (y x : Int) (state : St) : Grid :=
  { g with
      rows := g.rows.set (y % (g.height : Int)).toNat
                ((g.rows.getD (y % (g.height : Int)).toNat []).set
                  (x % (g.width : Int)).toNat state) }

/-- `game_logic(state, neighbors)`: the life-or-death rule. -/
def game_logic (state : St) (neighbors : Int) : St :=
  if state = ALIVE then
    if neighbors < 2 then EMPTY
    else if neighbors > 3 then EMPTY
    else state
  else
    if neighbors = 3 then ALIVE
    else state

/-- `count_neighbors(y, x, get)`: the eight toroidal Moore-neighborhood reads
followed by the counting loop over `neighbor_states`. -/
def count_neighbors (y x : Int) (get : Int → Int → St) : Nat :=
  let n_ := get (y - 1) (x + 0)
  let ne := get (y - 1) (x + 1)
  let e_ := get (y + 0) (x + 1)
  let se := get (y + 1) (x + 1)
  let s_ := get (y + 1) (x + 0)
  let sw := get (y + 1) (x - 1)
  let w_ := get (y + 0) (x - 1)
  let nw := get (y - 1) (x - 1)
  let neighbor_states := [n_, ne, e_, se, s_, sw, w_, nw]
  neighbor_states.foldl (fun count state => if state = ALIVE then count + 1 else count) 0

/-- The eight accessor reads of `count_neighbors`, in source order
(N, NE, E, SE, S, SW, W, NW). -/
def neighborReads (y x : Int) (get : Int → Int → St) : List St :=
  [get (y - 1) (x + 0), get (y - 1) (x + 1), get (y + 0) (x + 1),
   get (y + 1) (x + 1), get (y + 1) (x + 0), get (y + 1) (x - 1),
   get (y + 0) (x - 1), get (y - 1) (x - 1)]

lemma foldl_count_alive (l : List St) :
    ∀ n : Nat,
      l.foldl (fun count state => if state = ALIVE then count + 1 else count) n
        = n + l.countP (fun s => s == ALIVE) := by
  induction l with
  | nil => intro n; simp
  | cons a l ih =>
      intro n
      by_cases h : a = ALIVE
      · simp [h, ih, List.countP_cons]
        omega
      · simp [List.foldl_cons, if_neg h, ih, List.countP_cons, h]

lemma count_neighbors_eq_countP (y x : Int) (get : Int → Int → St) :
    count_neighbors y x get = (neighborReads y x get).countP (fun s => s == ALIVE) := by
  simpa [count_neighbors, neighborReads] using
    foldl_count_alive (neighborReads y x get) 0

/-- C3: `game_logic` implements the Conway rule exactly as the spec states
it, for both cell states and every integer neighbor count. -/
theorem game_logic_spec (n : Int) :
    (n < 2 → game_logic ALIVE n = EMPTY) ∧
    (n > 3 → game_logic ALIVE n = EMPTY) ∧
    (n = 2 ∨ n = 3 → game_logic ALIVE n = ALIVE) ∧
    (game_logic EMPTY 3 = ALIVE) ∧
    (n ≠ 3 → game_logic EMPTY n = EMPTY) := by
  refine ⟨?_, ?_, ?_, ?_, ?_⟩
  · intro h; simp [game_logic, h]
  · intro h
    have h2 : ¬ n < 2 := by omega
    simp [game_logic, h, h2]
  · rintro (rfl | rfl) <;> simp [game_logic, ALIVE, EMPTY]
  · simp [game_logic, ALIVE, EMPTY]
  · intro h
    have hae : EMPTY ≠ ALIVE := by decide
    simp [game_logic, hae, h]

/-- C3 witness: the rule evaluated at concrete counts. -/
theorem game_logic_spec_w :
    game_logic ALIVE 0 = EMPTY ∧ game_logic ALIVE 4 = EMPTY ∧
    game_logic ALIVE 2 = ALIVE ∧ game_logic EMPTY 3 = ALIVE ∧
    game_logic EMPTY 2 = EMPTY :=
  ⟨(game_logic_spec 0).1 (by decide),
   (game_logic_spec 4).2.1 (by decide),
   (game_logic_spec 2).2.2.1 (Or.inl rfl),
   (game_logic_spec 0).2.2.2.1,
   (game_logic_spec 2).2.2.2.2 (by decide)⟩

/-- C4: `count_neighbors` returns the number of ALIVE values among the eight
accessor reads at the Moore-neighborhood offsets; the result is at most 8 and
depends only on the multiset of the eight read states. -/
theorem count_neighbors_spec (y x : Int) (get : Int → Int → St) :
    count_neighbors y x get = (neighborReads y x get).count ALIVE ∧
    count_neighbors y x get ≤ 8 ∧
    ∀ (y2 x2 : Int) (get2 : Int → Int → St),
      (neighborReads y x get).Perm (neighborReads y2 x2 get2) →
      count_neighbors y x get = count_neighbors y2 x2 get2 := by
  refine ⟨?_, ?_, ?_⟩
  · rw [count_neighbors_eq_countP]
    rfl
  · calc count_neighbors y x get
        = (neighborReads y x get).countP (fun s => s == ALIVE) :=
          count_neighbors_eq_countP y x get
      _ ≤ (neighborReads y x get).length := List.countP_le_length _
      _ = 8 := rfl
  · intro y2 x2 get2 hperm
    rw [count_neighbors_eq_countP, count_neighbors_eq_countP]
    exact hperm.countP_eq _

/-- C4 witness: permutation invariance applied to two concrete accessors. -/
theorem count_neighbors_spec_w :
    count_neighbors 0 0 (fun _ _ => ALIVE) = count_neighbors 5 7 (fun _ _ => ALIVE) :=
  (count_neighbors_spec 0 0 (fun _ _ => ALIVE)).2.2 5 7 (fun _ _ => ALIVE) (by decide)

/-- C5: coordinates are normalized modulo the dimensions, so shifting a
coordinate pair by the full height and width reads the same cell: the grid is
a torus. -/
theorem grid_get_torus (g : Grid) (y x : Int)
    (hh : 1 ≤ g.height) (hw : 1 ≤ g.width) :
    g.get (y + g.height) (x + g.width) = g.get y x := by
  unfold Grid.get
  rw [Int.add_emod_self, Int.add_emod_self]

/-- C5 witness: wraparound on a concrete 2×3 grid. -/
theorem grid_get_torus_w :
    (Grid.init 2 3).get (5 + (Grid.init 2 3).height) (-4 + (Grid.init 2 3).width)
      = (Grid.init 2 3).get 5 (-4) :=
  grid_get_torus (Grid.init 2 3) 5 (-4) (by decide) (by decide)

lemma emod_toNat_lt (y : Int) (h : Nat) (hh : 1 ≤ h) :
    (y % (h : Int)).toNat < h := by
  have h0 : (0 : Int) < (h : Int) := by exact_mod_cast hh
  have h1 : 0 ≤ y % (h : Int) := Int.emod_nonneg y (by omega)
  have h2 : y % (h : Int) < (h : Int) := Int.emod_lt_of_pos y h0
  omega

/-- C9: on a well-formed grid with positive dimensions, `get` and `set` can
never hit an out-of-range index: both fallible forms always succeed, for all
integer coordinates. -/
theorem grid_access_total (g : Grid) (hg : g.wf)
    (hh : 1 ≤ g.height) (hw : 1 ≤ g.width) (y x : Int) (s : St) :
    (g.getOpt y x).isSome = true ∧ (g.setOpt y x s).isSome = true := by
  obtain ⟨hlen, hrows⟩ := hg
  have hi : (y % (g.height : Int)).toNat < g.rows.length := by
    rw [hlen]; exact emod_toNat_lt y g.height hh
  have hrowmem : g.rows[(y % (g.height : Int)).toNat] ∈ g.rows :=
    List.getElem_mem hi
  have hj : (x % (g.width : Int)).toNat
      < (g.rows[(y % (g.height : Int)).toNat]).length := by
    rw [hrows _ hrowmem]; exact emod_toNat_lt x g.width hw
  constructor
  · simp [Grid.getOpt, List.getElem?_eq_getElem hi, List.getElem?_eq_getElem hj]
  · simp [Grid.setOpt, List.getElem?_eq_getElem hi, List.getElem?_eq_getElem hj]

/-- C9 witness: concrete out-of-range-looking coordinates succeed on a 2×3
grid. -/
theorem grid_access_total_w :
    ((Grid.init 2 3).getOpt (-7) 11).isSome = true ∧
    ((Grid.init 2 3).setOpt (-7) 11 ALIVE).isSome = true :=
  grid_access_total (Grid.init 2 3) (by constructor <;> decide)
    (by decide) (by decide) (-7) 11 ALIVE

/-- C10: on a 1×1 torus every read lands on the single physical cell, so
`count_neighbors` counts that cell eight times: with the one cell ALIVE it
returns 8, counting with multiplicity rather than over distinct neighbors. -/
theorem count_neighbors_multiplicity :
    (∀ y x : Int, ((Grid.init 1 1).set 0 0 ALIVE).get y x
        = ((Grid.init 1 1).set 0 0 ALIVE).get 0 0) ∧
    count_neighbors 0 0 ((Grid.init 1 1).set 0 0 ALIVE).get = 8 := by
  constructor
  · intro y x
    simp [Grid.get, Grid.set, Grid.init, Int.emod_one]
  · decide

/-! The per-generation pipeline (`simulation_pipeline`). The queues carry each
cell exactly once through the two stages; the orchestrator drains the output
into a freshly allocated grid. The drain is modelled over an arbitrary
permutation of the stage-2 outputs, since the racing workers may deliver them
in any order. -/

/-- The items the orchestrator enqueues on `in_queue`: one `(y, x, state)`
triple per cell, row-major (the read-accessor is the grid's own `get`). -/
def Grid.cellItems (g : Grid) : List (Int × Int × St) :=
  (List.range g.height).flatMap (fun (y : Nat) =>
    (List.range g.width).map (fun (x : Nat) =>
      (((y : Nat) : Int), ((x : Nat) : Int), g.get y x)))

/-- Stage 1 (`count_neighbors_thread` pool) followed by stage 2
(`game_logic_thread` pool) applied to every enqueued item, on the error-free
path. -/
def pipelineOutputs (g : Grid) : List (Int × Int × St) :=
  (g.cellItems.map (fun p => (p.1, p.2.1, p.2.2, count_neighbors p.1 p.2.1 g.get))).map
    (fun q => (q.1, q.2.1, game_logic q.2.2.1 q.2.2.2))

/-- The orchestrator's drain: write each `(y, x, state)` output item into a
newly allocated grid. -/
def drainGrid (height width : Nat) (outs : List (Int × Int × St)) : Grid :=
  outs.foldl (fun ng p => ng.set p.1 p.2.1 p.2.2) (Grid.init height width)

/-- `simulation_pipeline`: one generation, start to finish. -/
def simulation_pipeline (g : Grid) : Grid :=
  drainGrid g.height g.width (pipelineOutputs g)

/-- The 5×9 grid seeded with the glider, exactly as the source seeds it. -/
def glider5x9 : Grid :=
  (((((Grid.init 5 9).set 0 3 ALIVE).set 1 4 ALIVE).set 2 2 ALIVE).set 2 3 ALIVE).set 2 4 ALIVE

/-- The canonical one-step glider translation on the 5×9 torus. -/
def gliderNext5x9 : Grid :=
  { height := 5, width := 9,
    rows := [["-", "-", "-", "-", "-", "-", "-", "-", "-"],
             ["-", "-", "*", "-", "*", "-", "-", "-", "-"],
             ["-", "-", "-", "*", "*", "-", "-", "-", "-"],
             ["-", "-", "-", "*", "-", "-", "-", "-", "-"],
             ["-", "-", "-", "-", "-", "-", "-", "-", "-"]] }

lemma Grid.height_set (g : Grid) (y x : Int) (v : St) : (g.set y x v).height = g.height := rfl

lemma Grid.width_set (g : Grid) (y x : Int) (v : St) : (g.set y x v).width = g.width := rfl

lemma Grid.wf_init (h w : Nat) : (Grid.init h w).wf := by
  constructor
  · simp [Grid.init]
  · intro r hr
    simp only [Grid.init] at hr
    rw [List.eq_of_mem_replicate hr]
    simp [Grid.init]

lemma natCast_emod_toNat (a h : Nat) (ha : a < h) :
    (((a : Int)) % ((h : Int))).toNat = a := by
  rw [Int.emod_eq_of_lt (by positivity) (by exact_mod_cast ha)]
  simp

lemma Grid.wf_set (g : Grid) (hg : g.wf) (hh : 1 ≤ g.height) (hw : 1 ≤ g.width)
    (y x : Int) (v : St) : (g.set y x v).wf := by
  obtain ⟨hlen, hrows⟩ := hg
  have hi : (y % (g.height : Int)).toNat < g.rows.length := by
    rw [hlen]; exact emod_toNat_lt y g.height hh
  constructor
  · simp [Grid.set, hlen]
  · intro r hr
    simp only [Grid.set] at hr
    rcases List.mem_or_eq_of_mem_set hr with h | h
    · exact hrows r h
    · subst h
      rw [List.length_set, List.getD_eq_getElem g.rows [] hi]
      exact hrows _ (List.getElem_mem hi)

lemma Grid.get_set_key_eq (g : Grid) (hg : g.wf) (hh : 1 ≤ g.height) (hw : 1 ≤ g.width)
    (y x y' x' : Int) (v : St)
    (hky : (y % (g.height : Int)).toNat = (y' % (g.height : Int)).toNat)
    (hkx : (x % (g.width : Int)).toNat = (x' % (g.width : Int)).toNat) :
    (g.set y' x' v).get y x = v := by
  obtain ⟨hlen, hrows⟩ := hg
  have hi' : (y' % (g.height : Int)).toNat < g.rows.length := by
    rw [hlen]; exact emod_toNat_lt y' g.height hh
  have hrow : g.rows.getD (y' % (g.height : Int)).toNat []
      = g.rows[(y' % (g.height : Int)).toNat] := List.getD_eq_getElem g.rows [] hi'
  have hj' : (x' % (g.width : Int)).toNat
      < (g.rows[(y' % (g.height : Int)).toNat]).length := by
    rw [hrows _ (List.getElem_mem hi')]; exact emod_toNat_lt x' g.width hw
  unfold Grid.get Grid.set
  simp only [hky, hkx, hrow]
  have hE1 : (g.rows.set (y' % (g.height : Int)).toNat
        (g.rows[(y' % (g.height : Int)).toNat].set (x' % (g.width : Int)).toNat v)).getD
        (y' % (g.height : Int)).toNat []
      = g.rows[(y' % (g.height : Int)).toNat].set (x' % (g.width : Int)).toNat v := by
    rw [List.getD_eq_getElem?_getD, List.getElem?_set]
    simp [hi']
  rw [hE1, List.getD_eq_getElem?_getD, List.getElem?_set]
  simp [hj']

lemma Grid.get_set_key_ne (g : Grid) (hg : g.wf) (hh : 1 ≤ g.height) (hw : 1 ≤ g.width)
    (y x y' x' : Int) (v : St)
    (hne : ¬((y % (g.height : Int)).toNat = (y' % (g.height : Int)).toNat ∧
             (x % (g.width : Int)).toNat = (x' % (g.width : Int)).toNat)) :
    (g.set y' x' v).get y x = g.get y x := by
  obtain ⟨hlen, hrows⟩ := hg
  have hi' : (y' % (g.height : Int)).toNat < g.rows.length := by
    rw [hlen]; exact emod_toNat_lt y' g.height hh
  have hrow : g.rows.getD (y' % (g.height : Int)).toNat []
      = g.rows[(y' % (g.height : Int)).toNat] := List.getD_eq_getElem g.rows [] hi'
  unfold Grid.get Grid.set
  by_cases hij : (y' % (g.height : Int)).toNat = (y % (g.height : Int)).toNat
  · have hjx : (x % (g.width : Int)).toNat ≠ (x' % (g.width : Int)).toNat := by
      intro hc; exact hne ⟨hij.symm, hc⟩
    have hE1 : (g.rows.set (y' % (g.height : Int)).toNat
          ((g.rows.getD (y' % (g.height : Int)).toNat []).set
            (x' % (g.width : Int)).toNat v)).getD (y % (g.height : Int)).toNat []
        = (g.rows.getD (y' % (g.height : Int)).toNat []).set
            (x' % (g.width : Int)).toNat v := by
      rw [← hij, List.getD_eq_getElem?_getD, List.getElem?_set]
      simp [hi']
    rw [hE1, hrow]
    have hE2 : ∀ d : St,
        (g.rows[(y' % (g.height : Int)).toNat].set
          (x' % (g.width : Int)).toNat v).getD (x % (g.width : Int)).toNat d
        = g.rows[(y' % (g.height : Int)).toNat].getD (x % (g.width : Int)).toNat d := by
      intro d
      rw [List.getD_eq_getElem?_getD,
        List.getElem?_set_ne (fun hc => hjx hc.symm),
        ← List.getD_eq_getElem?_getD]
    rw [hE2, ← hij, hrow]
  · have hE1 : (g.rows.set (y' % (g.height : Int)).toNat
          ((g.rows.getD (y' % (g.height : Int)).toNat []).set
            (x' % (g.width : Int)).toNat v)).getD (y % (g.height : Int)).toNat []
        = g.rows.getD (y % (g.height : Int)).toNat [] := by
      rw [List.getD_eq_getElem?_getD, List.getElem?_set_ne hij,
        ← List.getD_eq_getElem?_getD]
    rw [hE1]

lemma foldl_set_height (outs : List (Int × Int × St)) :
    ∀ g0 : Grid, (outs.foldl (fun ng p => ng.set p.1 p.2.1 p.2.2) g0).height = g0.height := by
  induction outs with
  | nil => intro g0; rfl
  | cons p rest ih => intro g0; simpa using ih (g0.set p.1 p.2.1 p.2.2)

lemma foldl_set_width (outs : List (Int × Int × St)) :
    ∀ g0 : Grid, (outs.foldl (fun ng p => ng.set p.1 p.2.1 p.2.2) g0).width = g0.width := by
  induction outs with
  | nil => intro g0; rfl
  | cons p rest ih => intro g0; simpa using ih (g0.set p.1 p.2.1 p.2.2)

lemma drainAux (h w : Nat) (hh : 1 ≤ h) (hw : 1 ≤ w) (yn xn : Nat)
    (hy : yn < h) (hx : xn < w) (v : St) :
    ∀ (outs : List (Int × Int × St)) (g0 : Grid),
      g0.wf → g0.height = h → g0.width = w →
      (∀ p ∈ outs,
        ((p.1 % (h : Int)).toNat = yn ∧ (p.2.1 % (w : Int)).toNat = xn) → p.2.2 = v) →
      ((∃ p ∈ outs, (p.1 % (h : Int)).toNat = yn ∧ (p.2.1 % (w : Int)).toNat = xn) ∨
        g0.get yn xn = v) →
      (outs.foldl (fun ng p => ng.set p.1 p.2.1 p.2.2) g0).get yn xn = v := by
  intro outs
  induction outs with
  | nil =>
      intro g0 hwf hgh hgw hval hdisj
      rcases hdisj with ⟨p, hp, _⟩ | hbase
      · exact absurd hp (List.not_mem_nil p)
      · simpa using hbase
  | cons p rest ih =>
      intro g0 hwf hgh hgw hval hdisj
      have hh0 : 1 ≤ g0.height := hgh ▸ hh
      have hw0 : 1 ≤ g0.width := hgw ▸ hw
      have hwf1 : (g0.set p.1 p.2.1 p.2.2).wf := Grid.wf_set g0 hwf hh0 hw0 _ _ _
      have hgh1 : (g0.set p.1 p.2.1 p.2.2).height = h := by
        rw [Grid.height_set]; exact hgh
      have hgw1 : (g0.set p.1 p.2.1 p.2.2).width = w := by
        rw [Grid.width_set]; exact hgw
      have hkyn : (((yn : Int)) % (g0.height : Int)).toNat = yn := by
        rw [hgh]; exact natCast_emod_toNat yn h hy
      have hkxn : (((xn : Int)) % (g0.width : Int)).toNat = xn := by
        rw [hgw]; exact natCast_emod_toNat xn w hx
      simp only [List.foldl_cons]
      by_cases hkey : (p.1 % (h : Int)).toNat = yn ∧ (p.2.1 % (w : Int)).toNat = xn
      · have hv : p.2.2 = v := hval p (List.mem_cons_self p rest) hkey
        have hbase1 : (g0.set p.1 p.2.1 p.2.2).get yn xn = v := by
          rw [Grid.get_set_key_eq g0 hwf hh0 hw0 _ _ _ _ _
            (by rw [hkyn, hgh]; exact hkey.1.symm)
            (by rw [hkxn, hgw]; exact hkey.2.symm)]
          exact hv
        exact ih (g0.set p.1 p.2.1 p.2.2) hwf1 hgh1 hgw1
          (fun q hq hk => hval q (List.mem_cons_of_mem p hq) hk) (Or.inr hbase1)
      · have hunch : (g0.set p.1 p.2.1 p.2.2).get yn xn = g0.get yn xn := by
          apply Grid.get_set_key_ne g0 hwf hh0 hw0
          intro hc
          apply hkey
          constructor
          · rw [hgh] at hc; rw [← hc.1, ← hgh, hkyn]
          · rw [hgw] at hc; rw [← hc.2, ← hgw, hkxn]
        rcases hdisj with ⟨q, hq, hk⟩ | hbase
        · rcases List.mem_cons.mp hq with rfl | hq'
          · exact absurd hk hkey
          · exact ih (g0.set p.1 p.2.1 p.2.2) hwf1 hgh1 hgw1
              (fun q2 hq2 hk2 => hval q2 (List.mem_cons_of_mem p hq2) hk2)
              (Or.inl ⟨q, hq', hk⟩)
        · exact ih (g0.set p.1 p.2.1 p.2.2) hwf1 hgh1 hgw1
            (fun q2 hq2 hk2 => hval q2 (List.mem_cons_of_mem p hq2) hk2)
            (Or.inr (hunch.trans hbase))

lemma mem_pipelineOutputs (g : Grid) (q : Int × Int × St) :
    q ∈ pipelineOutputs g ↔
      ∃ yn xn : Nat, yn < g.height ∧ xn < g.width ∧
        q = ((yn : Int), (xn : Int),
              game_logic (g.get yn xn) (count_neighbors yn xn g.get)) := by
  constructor
  · intro hq
    obtain ⟨p, hp, rfl⟩ := List.mem_map.mp hq
    obtain ⟨r, hr, rfl⟩ := List.mem_map.mp hp
    obtain ⟨yn, hyn, hr2⟩ := List.mem_flatMap.mp hr
    obtain ⟨xn, hxn, rfl⟩ := List.mem_map.mp hr2
    exact ⟨yn, xn, List.mem_range.mp hyn, List.mem_range.mp hxn, rfl⟩
  · rintro ⟨yn, xn, hyn, hxn, rfl⟩
    apply List.mem_map.mpr
    refine ⟨((yn : Int), (xn : Int), g.get yn xn, count_neighbors yn xn g.get), ?_, rfl⟩
    apply List.mem_map.mpr
    refine ⟨((yn : Int), (xn : Int), g.get yn xn), ?_, rfl⟩
    apply List.mem_flatMap.mpr
    exact ⟨yn, List.mem_range.mpr hyn,
      List.mem_map.mpr ⟨xn, List.mem_range.mpr hxn, rfl⟩⟩

/-- C1: one invocation of the pipeline returns a new grid of the same
dimensions in which every cell holds
`game_logic(grid.get(row, col), count_neighbors(row, col, grid.get))` — for
any order (`outs`) in which the racing workers deliver the stage-2 outputs —
and the 5×9 glider seed steps to the canonical one-step glider translation. -/
theorem simulation_pipeline_refines (g : Grid) (outs : List (Int × Int × St))
    (hg : g.wf) (hh : 1 ≤ g.height) (hw : 1 ≤ g.width)
    (hperm : outs.Perm (pipelineOutputs g)) :
    ((drainGrid g.height g.width outs).height = g.height ∧
     (drainGrid g.height g.width outs).width = g.width ∧
     ∀ yn xn : Nat, yn < g.height → xn < g.width →
       (drainGrid g.height g.width outs).get yn xn
         = game_logic (g.get yn xn) (count_neighbors yn xn g.get)) ∧
    simulation_pipeline glider5x9 = gliderNext5x9 := by
  constructor
  · refine ⟨?_, ?_, ?_⟩
    · rw [drainGrid, foldl_set_height]; rfl
    · rw [drainGrid, foldl_set_width]; rfl
    · intro yn xn hyn hxn
      apply drainAux g.height g.width hh hw yn xn hyn hxn
        (game_logic (g.get yn xn) (count_neighbors yn xn g.get)) outs
        (Grid.init g.height g.width) (Grid.wf_init g.height g.width) rfl rfl
      · intro p hp hkey
        have hp' : p ∈ pipelineOutputs g := hperm.subset hp
        obtain ⟨y2, x2, hy2, hx2, rfl⟩ := (mem_pipelineOutputs g p).mp hp'
        have hy2n : y2 = yn := by
          have := natCast_emod_toNat y2 g.height hy2
          simp only at hkey
          rw [← hkey.1, this]
        have hx2n : x2 = xn := by
          have := natCast_emod_toNat x2 g.width hx2
          simp only at hkey
          rw [← hkey.2, this]
        subst hy2n; subst hx2n; rfl
      · left
        refine ⟨((yn : Int), (xn : Int),
          game_logic (g.get yn xn) (count_neighbors yn xn g.get)), ?_, ?_, ?_⟩
        · exact hperm.mem_iff.mpr
            ((mem_pipelineOutputs g _).mpr ⟨yn, xn, hyn, hxn, rfl⟩)
        · exact natCast_emod_toNat yn g.height hyn
        · exact natCast_emod_toNat xn g.width hxn
  · decide

/-- C1 witness: the pipeline applied to a concrete 1×1 grid matches the
pointwise reference step at cell (0, 0). -/
theorem simulation_pipeline_refines_w :
    (drainGrid (Grid.init 1 1).height (Grid.init 1 1).width
        (pipelineOutputs (Grid.init 1 1))).get 0 0
      = game_logic ((Grid.init 1 1).get 0 0)
          (count_neighbors 0 0 (Grid.init 1 1).get) :=
  (simulation_pipeline_refines (Grid.init 1 1) (pipelineOutputs (Grid.init 1 1))
    (Grid.wf_init 1 1) (by decide) (by decide) (List.Perm.refl _)).1.2.2
    0 0 (by decide) (by decide)

/-! Worker threads and exception capture. The thread wrappers run their
transform over a fallible accessor / payload, modelling Python exceptions as
`Except.error`; a captured exception travels on as a `Sum.inr` payload. -/

/-- `count_neighbors` run against an accessor that may itself raise (the
grid read can fail inside the worker); the exception propagates out of the
call, to be caught by `count_neighbors_thread`. -/
def count_neighbors_fallible (y x : Int)
    (get : Int → Int → Except Err St) : Except Err Nat := do
  let n_ ← get (y - 1) (x + 0)
  let ne ← get (y - 1) (x + 1)
  let e_ ← get (y + 0) (x + 1)
  let se ← get (y + 1) (x + 1)
  let s_ ← get (y + 1) (x + 0)
  let sw ← get (y + 1) (x - 1)
  let w_ ← get (y + 0) (x - 1)
  let nw ← get (y - 1) (x - 1)
  let neighbor_states := [n_, ne, e_, se, s_, sw, w_, nw]
  pure (neighbor_states.foldl
    (fun count state => if state = ALIVE then count + 1 else count) 0)

/-- `count_neighbors_thread`: the `try/except` wrapper — a raised exception is
captured and substituted for the neighbor count in the output item. -/
def count_neighbors_thread
    (item : Int × Int × St × (Int → Int → Except Err St)) :
    Except Err (Int × Int × St × Sum Nat Err) :=
  match item with
  | (y, x, state, get) =>
    match count_neighbors_fallible y x get with
    | Except.ok neighbors => Except.ok (y, x, state, Sum.inl neighbors)
    | Except.error e => Except.ok (y, x, state, Sum.inr e)

/-- `game_logic` on a dynamic neighbor payload: comparing a forwarded
exception object with an int raises (Python `TypeError`); comparing it for
equality is merely false. -/
def game_logic_fallible (state : St) (neighbors : Sum Nat Err) : Except Err St :=
  if state = ALIVE then
    match neighbors with
    | Sum.inl n =>
        if n < 2 then Except.ok EMPTY
        else if n > 3 then Except.ok EMPTY
        else Except.ok state
    | Sum.inr _ => Except.error "TypeError"
  else
    match neighbors with
    | Sum.inl n => if n = 3 then Except.ok ALIVE else Except.ok state
    | Sum.inr _ => Except.ok state

/-- `game_logic_thread`: the `try/except` wrapper around `game_logic`. -/
def game_logic_thread (item : Int × Int × St × Sum Nat Err) :
    Except Err (Int × Int × Sum St Err) :=
  match item with
  | (y, x, state, neighbors) =>
    match game_logic_fallible state neighbors with
    | Except.ok next_stae => Except.ok (y, x, Sum.inl next_stae)
    | Except.error e => Except.ok (y, x, Sum.inr e)

/-- `StoppableWorker.run`: apply `func` to each dequeued item in order; an
uncaught exception from `func` would abort the whole loop (terminate the
thread). -/
def StoppableWorker_run {α β : Type} (func : α → Except Err β) :
    List α → Except Err (List β)
  | [] => Except.ok []
  | item :: rest => do
      let result ← func item
      let results ← StoppableWorker_run func rest
      pure (result :: results)

lemma count_neighbors_thread_ok
    (item : Int × Int × St × (Int → Int → Except Err St)) :
    ∃ v, count_neighbors_thread item = Except.ok v := by
  obtain ⟨y, x, s, get⟩ := item
  cases h : count_neighbors_fallible y x get <;>
    simp [count_neighbors_thread, h]

lemma game_logic_thread_ok (item : Int × Int × St × Sum Nat Err) :
    ∃ v, game_logic_thread item = Except.ok v := by
  obtain ⟨y, x, s, nb⟩ := item
  cases h : game_logic_fallible s nb <;>
    simp [game_logic_thread, h]

lemma StoppableWorker_run_ok {α β : Type} (func : α → Except Err β)
    (hfunc : ∀ a, ∃ v, func a = Except.ok v) :
    ∀ l : List α, (StoppableWorker_run func l).isOk = true := by
  intro l
  induction l with
  | nil => rfl
  | cons a rest ih =>
      obtain ⟨v, hv⟩ := hfunc a
      cases h2 : StoppableWorker_run func rest with
      | error e => rw [h2] at ih; simp [Except.isOk, Except.toBool] at ih
      | ok rs =>
          simp only [StoppableWorker_run, hv, h2]
          rfl

/-- C7: a worker never lets an exception raised while computing the neighbor
count or the next state terminate its thread: the whole run of either worker
is exception-free, and a failure inside the transform is forwarded as the
output item's payload in place of the expected count or state. -/
theorem worker_catches_and_forwards :
    (∀ its : List (Int × Int × St × (Int → Int → Except Err St)),
      (StoppableWorker_run count_neighbors_thread its).isOk = true) ∧
    (∀ its : List (Int × Int × St × Sum Nat Err),
      (StoppableWorker_run game_logic_thread its).isOk = true) ∧
    (∀ (y x : Int) (s : St) (get : Int → Int → Except Err St) (e : Err),
      count_neighbors_fallible y x get = Except.error e →
      count_neighbors_thread (y, x, s, get) = Except.ok (y, x, s, Sum.inr e)) ∧
    (∀ (y x : Int) (s : St) (nb : Sum Nat Err) (e : Err),
      game_logic_fallible s nb = Except.error e →
      game_logic_thread (y, x, s, nb) = Except.ok (y, x, Sum.inr e)) ∧
    (∀ (y x : Int) (s : St) (get : Int → Int → Except Err St) (n : Nat),
      count_neighbors_fallible y x get = Except.ok n →
      count_neighbors_thread (y, x, s, get) = Except.ok (y, x, s, Sum.inl n)) := by
  refine ⟨?_, ?_, ?_, ?_, ?_⟩
  · exact StoppableWorker_run_ok _ count_neighbors_thread_ok
  · exact StoppableWorker_run_ok _ game_logic_thread_ok
  · intro y x s get e h; simp [count_neighbors_thread, h]
  · intro y x s nb e h; simp [game_logic_thread, h]
  · intro y x s get n h; simp [count_neighbors_thread, h]

/-- C7 witness: an accessor that raises is captured and forwarded as the
payload of the stage-1 output item. -/
theorem worker_catches_and_forwards_w :
    count_neighbors_thread
        ((0 : Int), (0 : Int), EMPTY, fun _ _ => Except.error "boom")
      = Except.ok ((0 : Int), (0 : Int), EMPTY, Sum.inr "boom") :=
  worker_catches_and_forwards.2.2.1 0 0 EMPTY (fun _ _ => Except.error "boom")
    "boom" rfl

/-! The orchestrator's drain of `out_queue`. Its cells are dynamic: Python
list slots hold whatever `set` stores, so a drained cell is either a state or
a forwarded exception object. -/

/-- Payload of a stage-2 output item: a next state, or the exception the
worker captured in its place. -/
abbrev Payload := Sum St Err

/-- One `next_grid.set(y, x, state)` on the dynamic row matrix. -/
def setCellDyn (h w : Nat) (rows : List (List Payload)) (y x : Int)
    (v : Payload) : List (List Payload) :=
  rows.set (y % (h : Int)).toNat
    ((rows.getD (y % (h : Int)).toNat []).set (x % (w : Int)).toNat v)

/-- The drain loop of `simulation_pipeline` (`for item in out_queue: ...
next_grid.set(y, x, state)`): every received payload is written into the new
grid unchecked. -/
def drainLoop (height width : Nat) (items : List (Int × Int × Payload)) :
    List (List Payload) :=
  items.foldl (fun rows p => setCellDyn height width rows p.1 p.2.1 p.2.2)
    (List.replicate height (List.replicate width (Sum.inl EMPTY)))

/-- C2 evaluation at the failing input: when the output queue delivers an
error marker, the drain does not raise any simulation-level error — it stores
the exception object as the cell's state and completes, returning the grid.
`SimulationError` is defined in the source but never raised. -/
theorem drainLoop_stores_error :
    drainLoop 1 1 [((0 : Int), (0 : Int), (Sum.inr "boom" : Payload))]
      = [[Sum.inr "boom"]] := by decide

/-! Event-level model of one worker consuming a `ClosableQueue`. The
generator in `ClosableQueue.__iter__` yields an item, the loop body of
`StoppableWorker.run` computes and `put`s the result, and only when the
generator resumes does the `try/finally` run `task_done`. The trace records
these queue operations in program order. -/

/-- An element travelling through a `ClosableQueue`: a work item or the
close sentinel. -/
inductive QElem (α : Type) where
  | item (a : α)
  | sentinel
deriving DecidableEq, Repr

/-- Queue events a worker performs: dequeue (`get`), enqueue of a result on
the output queue (`put`), and `task_done` on the input queue. -/
inductive Ev (α β : Type) where
  | deq (e : QElem α)
  | put (b : β)
  | done (e : QElem α)
deriving DecidableEq, Repr

/-- The event trace of `StoppableWorker.run` iterating
`ClosableQueue.__iter__` over the queue contents: for each non-sentinel item
the order is `get`, `put(func item)`, `task_done`; the sentinel is dequeued,
marked done, and ends the iteration. -/
def runTrace {α β : Type} (func : α → β) : List (QElem α) → List (Ev α β)
  | [] => []
  | QElem.sentinel :: _ => [Ev.deq QElem.sentinel, Ev.done QElem.sentinel]
  | QElem.item a :: rest =>
      Ev.deq (QElem.item a) :: Ev.put (func a) :: Ev.done (QElem.item a) ::
        runTrace func rest

/-- Recognizes `task_done` events for non-sentinel items. -/
def isItemDone {α β : Type} : Ev α β → Bool
  | Ev.done (QElem.item _) => true
  | _ => false

/-- Recognizes output `put` events. -/
def isPut {α β : Type} : Ev α β → Bool
  | Ev.put _ => true
  | _ => false

/-- C6: in every worker trace, each non-sentinel item's `put` of the
transformed result strictly precedes its `task_done`, and consequently in
every trace prefix the number of item `task_done`s never exceeds the number
of `put`s — so the input queue's `join()` barrier cannot pass while some
corresponding output item is still unenqueued. -/
theorem put_before_task_done {α β : Type} (func : α → β) (q : List (QElem α)) :
    (∀ (j : Nat) (a : α),
      (runTrace func q)[j]? = some (Ev.done (QElem.item a)) →
      ∃ k, k < j ∧ (runTrace func q)[k]? = some (Ev.put (func a))) ∧
    (∀ m : Nat,
      ((runTrace func q).take m).countP isItemDone
        ≤ ((runTrace func q).take m).countP isPut) := by
  induction q with
  | nil =>
      constructor
      · intro j a h
        simp [runTrace] at h
      · intro m
        simp [runTrace]
  | cons e rest ih =>
      cases e with
      | sentinel =>
          constructor
          · intro j a h
            match j with
            | 0 => simp [runTrace] at h
            | 1 => simp [runTrace] at h
            | (j + 2) => simp [runTrace] at h
          · intro m
            match m with
            | 0 => simp
            | 1 => simp [runTrace, isItemDone, isPut]
            | (m + 2) =>
                simp [runTrace, List.take_succ_cons, isItemDone, isPut,
                  List.countP_cons]
      | item a0 =>
          constructor
          · intro j a h
            match j with
            | 0 => simp [runTrace] at h
            | 1 => simp [runTrace] at h
            | 2 =>
                simp only [runTrace, List.getElem?_cons_succ,
                  List.getElem?_cons_zero, Option.some.injEq] at h
                refine ⟨1, by omega, ?_⟩
                have ha : a0 = a := by
                  cases h
                  rfl
                simp [runTrace, ha]
            | (j + 3) =>
                simp only [runTrace, List.getElem?_cons_succ] at h
                obtain ⟨k, hk, hk2⟩ := ih.1 j a h
                refine ⟨k + 3, by omega, ?_⟩
                simpa [runTrace, List.getElem?_cons_succ] using hk2
          · intro m
            match m with
            | 0 => simp
            | 1 => simp [runTrace, isItemDone, isPut]
            | 2 => simp [runTrace, isItemDone, isPut, List.countP_cons]
            | (m + 3) =>
                have := ih.2 m
                simp only [runTrace, List.take_succ_cons, List.countP_cons,
                  isItemDone, isPut]
                omega

/-! Shutdown protocol of a `ClosableQueue`: `close()` enqueues one sentinel
per consumer that should terminate, and the shutdown loops call `close()`
once per worker. The state tracks the FIFO queue contents (work items
followed by the `n` sentinels), which consumers have terminated, and a log of
who dequeued what. One step = one `get()` by a still-running consumer. -/

/-- Queue with `n` consumer threads: remaining FIFO contents, which consumers
have observed their sentinel and terminated, and the dequeue log. -/
structure QSt (α : Type) (n : Nat) where
  queue : List (QElem α)
  stopped : Fin n → Bool
  log : List (Fin n × QElem α)

/-- Recognizes the close sentinel. -/
def isSent {α : Type} : QElem α → Bool
  | QElem.sentinel => true
  | QElem.item _ => false

/-- Consumer `c` performs one `get()` if it is still running and an element
is available; dequeuing the sentinel terminates `c`'s drain iteration. -/
def qstep {α : Type} {n : Nat} (s : QSt α n) (c : Fin n) : QSt α n :=
  if s.stopped c then s
  else
    match s.queue with
    | [] => s
    | e :: rest =>
        { queue := rest
          stopped := fun d => if d = c then isSent e else s.stopped d
          log := s.log ++ [(c, e)] }

/-- Run a schedule of consumer choices (any interleaving). -/
def qrun {α : Type} {n : Nat} (s : QSt α n) (sched : List (Fin n)) : QSt α n :=
  sched.foldl qstep s

/-- Initial state: the enqueued work items followed by the `n` sentinels the
`n` calls to `close()` appended; all consumers running. -/
def qinit (α : Type) (n : Nat) (items : List α) : QSt α n :=
  { queue := items.map QElem.item ++ List.replicate n QElem.sentinel
    stopped := fun _ => false
    log := [] }

/-- Number of consumers that have terminated. -/
def countStopped {α : Type} {n : Nat} (s : QSt α n) : Nat :=
  (List.finRange n).countP (fun c => s.stopped c)

/-- Number of sentinels in a list of queue elements. -/
def sentCount {α : Type} (l : List (QElem α)) : Nat := l.countP isSent

lemma qstep_decomp {α : Type} {n : Nat} (s : QSt α n) (c : Fin n) :
    (qstep s c).log.map Prod.snd ++ (qstep s c).queue
      = s.log.map Prod.snd ++ s.queue := by
  unfold qstep
  by_cases hst : s.stopped c = true
  · simp [hst]
  · cases hq : s.queue with
    | nil => simp [hst, hq]
    | cons e rest => simp [hst, hq]

lemma qrun_decomp {α : Type} {n : Nat} (sched : List (Fin n)) :
    ∀ s : QSt α n,
      (qrun s sched).log.map Prod.snd ++ (qrun s sched).queue
        = s.log.map Prod.snd ++ s.queue := by
  induction sched with
  | nil => intro s; rfl
  | cons c sched ih =>
      intro s
      have h1 : qrun s (c :: sched) = qrun (qstep s c) sched := rfl
      rw [h1, ih (qstep s c), qstep_decomp]

lemma countP_finRange_update {n : Nat} (f : Fin n → Bool) (c : Fin n) (b : Bool)
    (hfc : f c = false) :
    (List.finRange n).countP (fun d => if d = c then b else f d)
      = (List.finRange n).countP (fun d => f d) + (if b then 1 else 0) := by
  obtain ⟨l1, l2, h12⟩ := List.mem_iff_append.mp (List.mem_finRange c)
  have hnd : (List.finRange n).Nodup := List.nodup_finRange n
  rw [h12] at hnd
  rw [List.nodup_append] at hnd
  have hc2 : c ∉ l2 := (List.nodup_cons.mp hnd.2.1).1
  have hc1 : c ∉ l1 := fun hmem => hnd.2.2 hmem (List.mem_cons_self c l2)
  have e1 : l1.countP (fun d => if d = c then b else f d)
      = l1.countP (fun d => f d) := by
    apply List.countP_congr
    intro d hd
    have hdc : d ≠ c := fun hcc => hc1 (hcc ▸ hd)
    simp [hdc]
  have e2 : l2.countP (fun d => if d = c then b else f d)
      = l2.countP (fun d => f d) := by
    apply List.countP_congr
    intro d hd
    have hdc : d ≠ c := fun hcc => hc2 (hcc ▸ hd)
    simp [hdc]
  rw [h12, List.countP_append, List.countP_append, List.countP_cons,
    List.countP_cons, e1, e2]
  simp only [if_pos rfl, hfc]
  cases b <;> simp <;> omega

lemma qstep_inv {α : Type} {n : Nat} (s : QSt α n) (c : Fin n)
    (hinv : countStopped s = sentCount (s.log.map Prod.snd)) :
    countStopped (qstep s c) = sentCount ((qstep s c).log.map Prod.snd) := by
  unfold qstep
  by_cases hst : s.stopped c = true
  · simpa [hst] using hinv
  · cases hq : s.queue with
    | nil => simpa [hst, hq] using hinv
    | cons e rest =>
        rw [if_neg hst]
        simp only [hq]
        have hfc : s.stopped c = false := by
          revert hst; cases s.stopped c <;> simp
        have hupd : countStopped
            (⟨rest, fun d => if d = c then isSent e else s.stopped d,
              s.log ++ [(c, e)]⟩ : QSt α n)
            = countStopped s + (if isSent e then 1 else 0) := by
          simpa [countStopped] using
            countP_finRange_update (fun d => s.stopped d) c (isSent e) hfc
        rw [hupd]
        have hlog : sentCount ((s.log ++ [(c, e)]).map Prod.snd)
            = sentCount (s.log.map Prod.snd) + (if isSent e then 1 else 0) := by
          simp [sentCount, List.countP_append, List.countP_cons]
        rw [hlog, hinv]

lemma qrun_inv {α : Type} {n : Nat} (sched : List (Fin n)) :
    ∀ s : QSt α n,
      countStopped s = sentCount (s.log.map Prod.snd) →
      countStopped (qrun s sched)
        = sentCount ((qrun s sched).log.map Prod.snd) := by
  induction sched with
  | nil => intro s h; exact h
  | cons c sched ih =>
      intro s h
      exact ih (qstep s c) (qstep_inv s c h)

lemma sentCount_initQueue (α : Type) (n : Nat) (items : List α) :
    sentCount (items.map QElem.item ++ List.replicate n QElem.sentinel) = n := by
  simp [sentCount, List.countP_append, List.countP_map, List.countP_replicate,
    isSent, Function.comp]

lemma qrun_log_eq_of_empty {α : Type} {n : Nat} (items : List α)
    (sched : List (Fin n))
    (hq : (qrun (qinit α n items) sched).queue = []) :
    (qrun (qinit α n items) sched).log.map Prod.snd
      = items.map QElem.item ++ List.replicate n QElem.sentinel := by
  have hdec := qrun_decomp sched (qinit α n items)
  rw [hq, List.append_nil] at hdec
  simpa [qinit] using hdec

lemma qrun_all_stopped_of_empty {α : Type} {n : Nat} (items : List α)
    (sched : List (Fin n))
    (hq : (qrun (qinit α n items) sched).queue = []) :
    ∀ c : Fin n, (qrun (qinit α n items) sched).stopped c = true := by
  have hlog := qrun_log_eq_of_empty items sched hq
  have hinv0 : countStopped (qinit α n items)
      = sentCount ((qinit α n items).log.map Prod.snd) := by
    simp [countStopped, sentCount, qinit]
  have hinv := qrun_inv sched (qinit α n items) hinv0
  rw [hlog, sentCount_initQueue] at hinv
  have hcp : (List.finRange n).countP
      (fun c => (qrun (qinit α n items) sched).stopped c)
      = (List.finRange n).length := by
    rw [List.length_finRange]
    exact hinv
  intro c
  exact List.countP_eq_length.mp hcp c (List.mem_finRange c)

lemma qrun_empty_of_all_stopped {α : Type} {n : Nat} (items : List α)
    (sched : List (Fin n)) (hn : 1 ≤ n)
    (hs : ∀ c : Fin n, (qrun (qinit α n items) sched).stopped c = true) :
    (qrun (qinit α n items) sched).queue = [] := by
  by_contra hne
  have hinv0 : countStopped (qinit α n items)
      = sentCount ((qinit α n items).log.map Prod.snd) := by
    simp [countStopped, sentCount, qinit]
  have hinv := qrun_inv sched (qinit α n items) hinv0
  have hcount : countStopped (qrun (qinit α n items) sched) = n := by
    rw [countStopped, List.countP_eq_length.mpr (fun c _ => hs c),
      List.length_finRange]
  have hdec := qrun_decomp sched (qinit α n items)
  have hdec2 : (qrun (qinit α n items) sched).log.map Prod.snd
      ++ (qrun (qinit α n items) sched).queue
      = items.map QElem.item ++ List.replicate n QElem.sentinel := by
    simpa [qinit] using hdec
  have hsentq : sentCount ((qrun (qinit α n items) sched).queue) = 0 := by
    have htot : sentCount ((qrun (qinit α n items) sched).log.map Prod.snd)
        + sentCount ((qrun (qinit α n items) sched).queue) = n := by
      rw [sentCount, sentCount, ← List.countP_append, hdec2]
      exact sentCount_initQueue α n items
    rw [← hinv, hcount] at htot
    omega
  have hqd : (qrun (qinit α n items) sched).queue
      = (items.map QElem.item ++ List.replicate n QElem.sentinel).drop
          ((qrun (qinit α n items) sched).log.map Prod.snd).length := by
    rw [← hdec2, List.drop_left]
  have hlength : ((qrun (qinit α n items) sched).log.map Prod.snd).length
      + ((qrun (qinit α n items) sched).queue).length
      = items.length + n := by
    have := congrArg List.length hdec2
    simpa using this
  have hqpos : 1 ≤ ((qrun (qinit α n items) sched).queue).length :=
    List.length_pos.mpr hne
  by_cases hd : ((qrun (qinit α n items) sched).log.map Prod.snd).length
      ≤ items.length
  · rw [hqd, List.drop_append_of_le_length (by simpa using hd)] at hsentq
    simp [sentCount, List.countP_append, List.countP_replicate, isSent] at hsentq
    omega
  · have hmap : (items.map (QElem.item : α → QElem α)).length = items.length := by
      simp
    have hsplit : ((qrun (qinit α n items) sched).log.map Prod.snd).length
        = (items.map QElem.item).length
          + (((qrun (qinit α n items) sched).log.map Prod.snd).length
              - (items.map QElem.item).length) := by
      omega
    have hrep : ∀ k : Nat,
        sentCount (List.replicate k (QElem.sentinel : QElem α)) = k := by
      intro k
      simp [sentCount, List.countP_replicate, isSent]
    rw [hqd, hsplit, List.drop_append, List.drop_replicate, hrep] at hsentq
    omega

/-- C8: close the queue once per consumer and run any interleaving. Whenever
the system is quiescent (every consumer is terminated or the queue is empty),
the queue is in fact fully drained and all `n` consumers have terminated — no
consumer stays blocked. Moreover, once drained, the dequeue log contains the
whole FIFO contents in order — every non-sentinel item enqueued before the
first close was dequeued exactly once, each occurrence by the single consumer
recorded with it — and the `n` sentinels each stopped one consumer. -/
theorem closable_queue_shutdown (α : Type) [DecidableEq α] (n : Nat)
    (items : List α) (sched : List (Fin n)) (hn : 1 ≤ n) :
    ((∀ c : Fin n, (qrun (qinit α n items) sched).stopped c = true ∨
        (qrun (qinit α n items) sched).queue = []) →
      ((qrun (qinit α n items) sched).queue = [] ∧
       ∀ c : Fin n, (qrun (qinit α n items) sched).stopped c = true)) ∧
    ((qrun (qinit α n items) sched).queue = [] →
      ((qrun (qinit α n items) sched).log.map Prod.snd
          = items.map QElem.item ++ List.replicate n QElem.sentinel ∧
        ∀ a : α, (qrun (qinit α n items) sched).log.countP
            (fun p => p.2 == QElem.item a) = items.count a)) := by
  constructor
  · intro hstuck
    by_cases hq : (qrun (qinit α n items) sched).queue = []
    · exact ⟨hq, qrun_all_stopped_of_empty items sched hq⟩
    · have hs : ∀ c : Fin n, (qrun (qinit α n items) sched).stopped c = true :=
        fun c => (hstuck c).resolve_right hq
      exact absurd (qrun_empty_of_all_stopped items sched hn hs) hq
  · intro hq
    have hlog := qrun_log_eq_of_empty items sched hq
    refine ⟨hlog, ?_⟩
    intro a
    have h1 : ((qrun (qinit α n items) sched).log.map Prod.snd).countP
        (fun e => e == QElem.item a)
        = (qrun (qinit α n items) sched).log.countP
            (fun p => p.2 == QElem.item a) := by
      rw [List.countP_map]
      rfl
    rw [← h1, hlog, List.countP_append, List.countP_map, List.countP_replicate]
    have hse : ((QElem.sentinel : QElem α) == QElem.item a) = false := by
      simp
    rw [hse]
    have h2 : items.countP ((fun e => e == QElem.item a) ∘ QElem.item)
        = items.countP (fun b => b == a) := by
      apply List.countP_congr
      intro b hb
      simp [Function.comp]
    rw [h2, List.count_eq_countP]
    simp

/-- C8 witness: two consumers, one work item, the queue closed twice; the
schedule lets consumer 0 take the item and the first sentinel and consumer 1
the second sentinel. -/
theorem closable_queue_shutdown_w :
    (qrun (qinit Nat 2 [7]) [(0 : Fin 2), 0, 1]).queue = [] ∧
    (∀ c : Fin 2, (qrun (qinit Nat 2 [7]) [(0 : Fin 2), 0, 1]).stopped c = true) ∧
    (qrun (qinit Nat 2 [7]) [(0 : Fin 2), 0, 1]).log.countP
        (fun p => p.2 == QElem.item 7) = [7].count 7 := by
  have h := closable_queue_shutdown Nat 2 [7] [(0 : Fin 2), 0, 1] (by decide)
  have hstuck : ∀ c : Fin 2,
      (qrun (qinit Nat 2 [7]) [(0 : Fin 2), 0, 1]).stopped c = true ∨
      (qrun (qinit Nat 2 [7]) [(0 : Fin 2), 0, 1]).queue = [] := by decide
  obtain ⟨hq, hs⟩ := h.1 hstuck
  exact ⟨hq, hs, (h.2 hq).2 7⟩

/-- C6 witness: in the concrete trace of a worker processing one item then
the sentinel, the item's `put` occurs strictly before its `task_done`. -/
theorem put_before_task_done_w :
    ∃ k, k < 2 ∧
      (runTrace (fun a => a + 1) [QElem.item 3, QElem.sentinel])[k]?
        = some (Ev.put 4) :=
  (put_before_task_done (fun a => a + 1) [QElem.item 3, QElem.sentinel]).1
    2 3 rfl
